import Mathlib

/-!
Shallow embedding of the AI-Chat-Assistant client (src/index.tsx) and
verification of the frozen claims about its response-rendering and
history pipeline.

Strings are modelled as `List Char`.  The second (Pro) version of the
source file is the authority; function names follow the source.
-/

namespace AIChat

/-! ## Character classes (JavaScript `\s`, `\w`, `String.prototype.trim`)

JavaScript `\s` and `trim()` use the same character set: ASCII whitespace,
NBSP, BOM, and the Unicode space separators plus LS/PS. -/

def isJsWs (c : Char) : Bool :=
  c.toNat ∈ [0x9, 0xA, 0xB, 0xC, 0xD, 0x20, 0xA0, 0x1680,
    0x2000, 0x2001, 0x2002, 0x2003, 0x2004, 0x2005, 0x2006, 0x2007,
    0x2008, 0x2009, 0x200A, 0x2028, 0x2029, 0x202F, 0x205F, 0x3000, 0xFEFF]

/-- JavaScript `\w`: ASCII letters, digits and underscore. -/
def isWordChar (c : Char) : Bool :=
  (97 ≤ c.toNat && c.toNat ≤ 122) || (65 ≤ c.toNat && c.toNat ≤ 90) ||
    (48 ≤ c.toNat && c.toNat ≤ 57) || c.toNat == 95

/-- JavaScript `String.prototype.trim`. -/
def jsTrim (l : List Char) : List Char :=
  ((l.dropWhile isJsWs).reverse.dropWhile isJsWs).reverse

/-- JavaScript `String.prototype.toLowerCase`, restricted to the ASCII
range actually exercised by the image keywords. -/
def lowerChar (c : Char) : Char :=
  if 65 ≤ c.toNat ∧ c.toNat ≤ 90 then Char.ofNat (c.toNat + 32) else c

def lowerStr (l : List Char) : List Char := l.map lowerChar

/-! ## Fence scanning: the regex `/```(\w*)\s*\n?([\s\S]*?)\n?\s*```/g`

The regex engine's behaviour on this pattern is deterministic:

* a match can start only at a `` ``` `` occurrence, and the leftmost such
  occurrence is used (a later start can succeed only if the first can,
  because `\w`/`\s` match no backtick);
* `(\w*)` and the following `\s*` commit to their maximal runs (shrinking
  them only exposes word/whitespace characters, never a closing fence,
  so backtracking cannot turn failure into success);
* the `\n?` after `\s*` matches empty (the next character is not
  whitespace), and the lazy `([\s\S]*?)` together with the trailing
  `\n?\s*` ends group 2 at the start of the maximal whitespace run that
  immediately precedes the first subsequent `` ``` `` occurrence.

`splitFence` locates the first `` ``` ``; `tryOpen` runs the committed
tag/whitespace/body analysis after an opener; `findCodeMatch` is one
`exec` step returning the full decomposition of the input. -/

/-- Split at the first occurrence of `` ``` ``:
`splitFence l = some (a, b)` when `l = a ++ backticks ++ b` with `a`
containing no fence occurrence. -/
def splitFence : List Char → Option (List Char × List Char)
  | [] => none
  | c :: cs =>
    if (c :: cs).take 3 = ['`', '`', '`'] then some ([], cs.drop 2)
    else (splitFence cs).map fun p => (c :: p.1, p.2)

/-- After an opening fence: the committed language tag, the whitespace
run, group 2 (the body), the trailing whitespace run, and the text after
the closing fence.  `none` when no closing fence exists. -/
def tryOpen (l : List Char) :
    Option (List Char × List Char × List Char × List Char × List Char) :=
  let tag := l.takeWhile isWordChar
  let r1 := l.dropWhile isWordChar
  let ws1 := r1.takeWhile isJsWs
  let r2 := r1.dropWhile isJsWs
  match splitFence r2 with
  | none => none
  | some (a, post) =>
    some (tag, ws1, (a.reverse.dropWhile isJsWs).reverse,
      (a.reverse.takeWhile isJsWs).reverse, post)

/-- One `exec` of the code-block regex, as a full decomposition of the
input: `pre ++ ``` ++ tag ++ ws1 ++ body ++ ws2 ++ ``` ++ post`. -/
structure FenceMatch where
  pre : List Char
  tag : List Char
  ws1 : List Char
  body : List Char
  ws2 : List Char
  post : List Char
deriving Repr, DecidableEq

def findCodeMatch (l : List Char) : Option FenceMatch :=
  match splitFence l with
  | none => none
  | some (pre, rest) =>
    match tryOpen rest with
    | none => none
    | some (tag, ws1, body, ws2, post) => some ⟨pre, tag, ws1, body, ws2, post⟩

/-! ## Segments (`formatAndDisplayAIResponse`) -/

inductive Segment where
  | prose (text : List Char)
  | code (language : List Char) (content : List Char)
deriving Repr, DecidableEq

/-- `match[1]?.trim() || 'plaintext'`. -/
def languageOf (tag : List Char) : List Char :=
  if jsTrim tag = [] then "plaintext".data else jsTrim tag

/-- Segments emitted for a single regex match: the preceding prose run
when non-empty after trimming, and the code segment when the trimmed
body is non-empty (`if (codeContent)` in the source). -/
def matchSegs (m : FenceMatch) : List Segment :=
  (if jsTrim m.pre = [] then [] else [Segment.prose (jsTrim m.pre)]) ++
    (if jsTrim m.body = [] then []
     else [Segment.code (languageOf m.tag) (jsTrim m.body)])

/-- The `while ((match = codeBlockRegex.exec(fullText)) !== null)` loop
plus the trailing-prose step, fuelled for structural recursion (each
match consumes at least six characters, so `length + 1` fuel suffices). -/
def segmentsGo : Nat → List Char → List Segment
  | 0, _ => []
  | fuel + 1, l =>
    match findCodeMatch l with
    | none => if jsTrim l = [] then [] else [Segment.prose (jsTrim l)]
    | some m => matchSegs m ++ segmentsGo fuel m.post

def segmentsOf (l : List Char) : List Segment := segmentsGo (l.length + 1) l

/-- The fallback string rendered when nothing was added and the trimmed
input is empty (source line 666). -/
def emptyResponseFallback : List Char := "<i>[AI gave an empty response]</i>".data

/-- `formatAndDisplayAIResponse`, at the segment level: the scan output,
or the `!contentAdded` fallback paragraph. -/
def formatAndDisplayAIResponse (fullText : List Char) : List Segment :=
  let segs := segmentsOf fullText
  if segs = [] then
    [Segment.prose
      (if jsTrim fullText = [] then emptyResponseFallback else jsTrim fullText)]
  else segs

/-! ## Decomposition lemmas for the fence scan -/

theorem splitFence_eq : ∀ (l a b : List Char), splitFence l = some (a, b) →
    l = a ++ '`' :: '`' :: '`' :: b := by
  intro l
  induction l with
  | nil => intro a b h; simp [splitFence] at h
  | cons c cs ih =>
    intro a b h
    simp only [splitFence] at h
    split at h
    · rename_i htake
      simp only [Option.some.injEq, Prod.mk.injEq] at h
      obtain ⟨rfl, rfl⟩ := h.symm
      have hsplit := List.take_append_drop 3 (c :: cs)
      rw [htake] at hsplit
      simpa using hsplit.symm
    · cases heq : splitFence cs with
      | none => rw [heq] at h; simp at h
      | some p =>
        obtain ⟨p1, p2⟩ := p
        rw [heq] at h
        simp only [Option.map, Option.some.injEq, Prod.mk.injEq] at h
        obtain ⟨rfl, rfl⟩ := h.symm
        have := ih p1 p2 heq
        simp [this]

theorem span_decomp (p : Char → Bool) (l : List Char) :
    l = l.takeWhile p ++ l.dropWhile p :=
  (List.takeWhile_append_dropWhile p l).symm

theorem rev_span_decomp (p : Char → Bool) (a : List Char) :
    a = (a.reverse.dropWhile p).reverse ++ (a.reverse.takeWhile p).reverse := by
  conv_lhs => rw [← List.reverse_reverse a,
    ← List.takeWhile_append_dropWhile (p := p) (l := a.reverse)]
  rw [List.reverse_append]

theorem tryOpen_eq (l tag ws1 body ws2 post : List Char)
    (h : tryOpen l = some (tag, ws1, body, ws2, post)) :
    l = tag ++ ws1 ++ body ++ ws2 ++ '`' :: '`' :: '`' :: post := by
  unfold tryOpen at h
  simp only [] at h
  cases heq : splitFence ((l.dropWhile isWordChar).dropWhile isJsWs) with
  | none => rw [heq] at h; simp at h
  | some p =>
    obtain ⟨a, post0⟩ := p
    rw [heq] at h
    simp only [Option.some.injEq, Prod.mk.injEq] at h
    obtain ⟨rfl, rfl, rfl, rfl, rfl⟩ := h
    have h3 := splitFence_eq _ a post0 heq
    conv_lhs => rw [span_decomp isWordChar l]
    conv_lhs => rw [span_decomp isJsWs (l.dropWhile isWordChar)]
    conv_lhs => rw [h3]
    conv_lhs => rw [rev_span_decomp isJsWs a]
    simp [List.append_assoc]

theorem findCodeMatch_eq (l : List Char) (m : FenceMatch)
    (h : findCodeMatch l = some m) :
    l = m.pre ++ '`' :: '`' :: '`' ::
      (m.tag ++ m.ws1 ++ m.body ++ m.ws2 ++ '`' :: '`' :: '`' :: m.post) := by
  unfold findCodeMatch at h
  cases heq : splitFence l with
  | none => rw [heq] at h; simp at h
  | some p =>
    obtain ⟨pre0, rest0⟩ := p
    rw [heq] at h
    cases heq2 : tryOpen rest0 with
    | none => simp [heq2] at h
    | some q =>
      obtain ⟨tag, ws1, body, ws2, post⟩ := q
      simp only [heq2, Option.some.injEq] at h
      subst h
      have h1 := splitFence_eq l pre0 rest0 heq
      have h2 := tryOpen_eq rest0 tag ws1 body ws2 post heq2
      rw [h1, h2]

theorem findCodeMatch_post_lt (l : List Char) (m : FenceMatch)
    (h : findCodeMatch l = some m) : m.post.length < l.length := by
  have := findCodeMatch_eq l m h
  have hlen : l.length = m.pre.length + (3 +
      (m.tag.length + m.ws1.length + m.body.length + m.ws2.length +
        (3 + m.post.length))) := by
    rw [this]; simp [List.length_append]; omega
  omega

/-! ## Fuel irrelevance for the scan loop -/

theorem segmentsGo_congr : ∀ (f₁ : Nat) (f₂ : Nat) (l : List Char),
    l.length < f₁ → l.length < f₂ → segmentsGo f₁ l = segmentsGo f₂ l := by
  intro f₁
  induction f₁ with
  | zero => intro f₂ l h1 _; omega
  | succ a ih =>
    intro f₂ l h1 h2
    cases f₂ with
    | zero => omega
    | succ b =>
      simp only [segmentsGo]
      cases heq : findCodeMatch l with
      | none => rfl
      | some m =>
        have hlt := findCodeMatch_post_lt l m heq
        show matchSegs m ++ segmentsGo a m.post = matchSegs m ++ segmentsGo b m.post
        rw [ih b m.post (by omega) (by omega)]

theorem segmentsOf_none (l : List Char) (h : findCodeMatch l = none) :
    segmentsOf l = if jsTrim l = [] then [] else [Segment.prose (jsTrim l)] := by
  simp [segmentsOf, segmentsGo, h]

theorem segmentsOf_some (l : List Char) (m : FenceMatch)
    (h : findCodeMatch l = some m) :
    segmentsOf l = matchSegs m ++ segmentsOf m.post := by
  have hlt := findCodeMatch_post_lt l m h
  have step : segmentsGo (l.length + 1) l = matchSegs m ++ segmentsGo l.length m.post := by
    show (match findCodeMatch l with
      | none => if jsTrim l = [] then [] else [Segment.prose (jsTrim l)]
      | some m => matchSegs m ++ segmentsGo l.length m.post) =
        matchSegs m ++ segmentsGo l.length m.post
    rw [h]
  rw [segmentsOf, step, segmentsOf,
    segmentsGo_congr l.length (m.post.length + 1) m.post (by omega) (by omega)]

/-! ## Whitespace-erasure machinery for the round-trip property -/

/-- Erase every JS-whitespace character; the common refinement of any
"equal up to whitespace trimming at segment boundaries" reading. -/
def stripWs (l : List Char) : List Char := l.filter (fun c => !(isJsWs c))

theorem strip_append (a b : List Char) :
    stripWs (a ++ b) = stripWs a ++ stripWs b := List.filter_append ..

theorem strip_allWs {l : List Char} (h : ∀ c ∈ l, isJsWs c) : stripWs l = [] := by
  simp only [stripWs, List.filter_eq_nil_iff]
  intro a ha
  simp [h a ha]

theorem strip_reverse (l : List Char) : stripWs l.reverse = (stripWs l).reverse := by
  simp [stripWs, List.filter_reverse]

theorem strip_dropWhile (l : List Char) :
    stripWs (l.dropWhile isJsWs) = stripWs l := by
  conv_rhs => rw [span_decomp isJsWs l]
  rw [strip_append, strip_allWs fun c hc => List.mem_takeWhile_imp hc]
  rfl

theorem strip_trim (l : List Char) : stripWs (jsTrim l) = stripWs l := by
  unfold jsTrim
  rw [strip_reverse, strip_dropWhile, strip_reverse, List.reverse_reverse,
    strip_dropWhile]

theorem strip_of_trim_nil {l : List Char} (h : jsTrim l = []) : stripWs l = [] := by
  rw [← strip_trim l, h]; rfl

theorem strip_tick (x : List Char) : stripWs ('`' :: x) = '`' :: stripWs x := by
  simp [stripWs, List.filter_cons]
  decide

theorem strip_nl (x : List Char) : stripWs ('\n' :: x) = stripWs x := by
  simp [stripWs, List.filter_cons]
  decide

/-- Character-class facts about a successful match: the tag is word
characters, the two slack runs are whitespace. -/
theorem findCodeMatch_facts (l : List Char) (m : FenceMatch)
    (h : findCodeMatch l = some m) :
    (∀ c ∈ m.tag, isWordChar c) ∧ (∀ c ∈ m.ws1, isJsWs c) ∧
      (∀ c ∈ m.ws2, isJsWs c) := by
  unfold findCodeMatch at h
  cases heq : splitFence l with
  | none => rw [heq] at h; simp at h
  | some p =>
    obtain ⟨pre0, rest0⟩ := p
    rw [heq] at h
    cases heq2 : tryOpen rest0 with
    | none => simp [heq2] at h
    | some q =>
      obtain ⟨tag, ws1, body, ws2, post⟩ := q
      simp only [heq2, Option.some.injEq] at h
      subst h
      unfold tryOpen at heq2
      simp only [] at heq2
      cases heq3 : splitFence ((rest0.dropWhile isWordChar).dropWhile isJsWs) with
      | none => rw [heq3] at heq2; simp at heq2
      | some r =>
        obtain ⟨a, post0⟩ := r
        rw [heq3] at heq2
        simp only [Option.some.injEq, Prod.mk.injEq] at heq2
        obtain ⟨rfl, rfl, rfl, rfl, rfl⟩ := heq2
        refine ⟨fun c hc => List.mem_takeWhile_imp hc,
          fun c hc => List.mem_takeWhile_imp hc, fun c hc => ?_⟩
        rw [List.mem_reverse] at hc
        exact List.mem_takeWhile_imp hc

/-! ## Rendering segments back to text -/

/-- Re-serialize a segment: prose is its text; a code segment is printed
back as a fenced block with its language tag. -/
def renderSegment : Segment → List Char
  | .prose t => t
  | .code lang content =>
      '`' :: '`' :: '`' ::
        (lang ++ '\n' :: (content ++ '\n' :: '`' :: '`' :: '`' :: []))

def renderAll (segs : List Segment) : List Char :=
  (segs.map renderSegment).flatten

theorem renderAll_append (a b : List Segment) :
    renderAll (a ++ b) = renderAll a ++ renderAll b := by
  simp [renderAll]

theorem renderAll_single (s : Segment) : renderAll [s] = renderSegment s := by
  simp [renderAll]

theorem renderAll_pair (s t : Segment) :
    renderAll [s, t] = renderSegment s ++ renderSegment t := by
  simp [renderAll]

theorem strip_rendered_code (lang content : List Char) :
    stripWs (renderSegment (Segment.code lang content)) =
      '`' :: '`' :: '`' :: (stripWs lang ++ (stripWs content ++ ['`', '`', '`'])) := by
  show stripWs ('`' :: '`' :: '`' ::
    (lang ++ '\n' :: (content ++ '\n' :: '`' :: '`' :: '`' :: []))) = _
  rw [strip_tick, strip_tick, strip_tick, strip_append, strip_nl, strip_append,
    strip_nl, strip_tick, strip_tick, strip_tick]
  rfl

/-! ## The well-behaved-scan predicate

`goodScan` holds when every region matched by the fence scan carries an
explicit language tag and a non-empty (after trimming) body — exactly
the regions the source emits as visible code segments without dropping
characters. -/

def goodScanGo : Nat → List Char → Bool
  | 0, _ => true
  | fuel + 1, l =>
    match findCodeMatch l with
    | none => true
    | some m =>
      !(jsTrim m.tag).isEmpty && (!(jsTrim m.body).isEmpty && goodScanGo fuel m.post)

def goodScan (l : List Char) : Bool := goodScanGo (l.length + 1) l

theorem goodScanGo_congr : ∀ (f₁ : Nat) (f₂ : Nat) (l : List Char),
    l.length < f₁ → l.length < f₂ → goodScanGo f₁ l = goodScanGo f₂ l := by
  intro f₁
  induction f₁ with
  | zero => intro f₂ l h1 _; omega
  | succ a ih =>
    intro f₂ l h1 h2
    cases f₂ with
    | zero => omega
    | succ b =>
      simp only [goodScanGo]
      cases heq : findCodeMatch l with
      | none => rfl
      | some m =>
        have hlt := findCodeMatch_post_lt l m heq
        show (!(jsTrim m.tag).isEmpty && (!(jsTrim m.body).isEmpty && goodScanGo a m.post)) =
          (!(jsTrim m.tag).isEmpty && (!(jsTrim m.body).isEmpty && goodScanGo b m.post))
        rw [ih b m.post (by omega) (by omega)]

theorem goodScan_some (l : List Char) (m : FenceMatch)
    (h : findCodeMatch l = some m) :
    goodScan l =
      (!(jsTrim m.tag).isEmpty && (!(jsTrim m.body).isEmpty && goodScan m.post)) := by
  have hlt := findCodeMatch_post_lt l m h
  have step : goodScanGo (l.length + 1) l =
      (!(jsTrim m.tag).isEmpty && (!(jsTrim m.body).isEmpty && goodScanGo l.length m.post)) := by
    show (match findCodeMatch l with
      | none => true
      | some m =>
        !(jsTrim m.tag).isEmpty && (!(jsTrim m.body).isEmpty && goodScanGo l.length m.post)) =
        (!(jsTrim m.tag).isEmpty && (!(jsTrim m.body).isEmpty && goodScanGo l.length m.post))
    rw [h]
  rw [goodScan, step, goodScan,
    goodScanGo_congr l.length (m.post.length + 1) m.post (by omega) (by omega)]

/-- Round-trip, up to whitespace erasure, for every input whose scan is
well behaved. -/
theorem roundtrip_aux : ∀ (n : Nat) (l : List Char), l.length ≤ n →
    goodScan l = true → stripWs (renderAll (segmentsOf l)) = stripWs l := by
  intro n
  induction n with
  | zero =>
    intro l hlen _
    have : l = [] := List.length_eq_zero.mp (Nat.le_zero.mp hlen)
    subst this
    decide
  | succ n ih =>
    intro l hlen hgood
    cases heq : findCodeMatch l with
    | none =>
      rw [segmentsOf_none l heq]
      by_cases ht : jsTrim l = []
      · rw [ht]
        simp only [if_pos rfl]
        rw [strip_of_trim_nil ht]
        rfl
      · rw [if_neg ht]
        show stripWs (jsTrim l ++ []) = stripWs l
        rw [List.append_nil]
        exact strip_trim l
    | some m =>
      have hlt := findCodeMatch_post_lt l m heq
      rw [goodScan_some l m heq] at hgood
      simp only [Bool.and_eq_true, Bool.not_eq_true'] at hgood
      obtain ⟨htag0, hbody0, hpost⟩ := hgood
      have htag : jsTrim m.tag ≠ [] := by
        intro hh; rw [hh] at htag0; simp at htag0
      have hbody : jsTrim m.body ≠ [] := by
        intro hh; rw [hh] at hbody0; simp at hbody0
      obtain ⟨hwtag, hws1, hws2⟩ := findCodeMatch_facts l m heq
      rw [segmentsOf_some l m heq, renderAll_append, strip_append,
        ih m.post (by omega) hpost]
      conv_rhs => rw [findCodeMatch_eq l m heq]
      rw [strip_append, strip_tick, strip_tick, strip_tick,
        strip_append, strip_append, strip_append, strip_append,
        strip_tick, strip_tick, strip_tick,
        strip_allWs hws1, strip_allWs hws2]
      unfold matchSegs languageOf
      rw [if_neg hbody, if_neg htag]
      by_cases hpre : jsTrim m.pre = []
      · rw [if_pos hpre, strip_of_trim_nil hpre, List.nil_append,
          renderAll_single, strip_rendered_code, strip_trim, strip_trim]
        simp [List.append_assoc]
      · rw [if_neg hpre, List.singleton_append, renderAll_pair, strip_append,
          strip_rendered_code]
        show stripWs (jsTrim m.pre) ++ _ ++ _ = _
        rw [strip_trim, strip_trim, strip_trim]
        simp [List.append_assoc]

/-! ## Message model and persistent store (`StoredMessage`, localStorage) -/

inductive Role where
  | user
  | model
deriving Repr, DecidableEq

/-- The `StoredMessage` interface; optional fields are `Option`,
`isError` absent is `false`. -/
structure StoredMessage where
  id : List Char
  role : Role
  textContent : Option (List Char) := none
  imageUrl : Option (List Char) := none
  altText : Option (List Char) := none
  isError : Bool := false
  timestamp : Nat
deriving Repr, DecidableEq

/-- An entry of the upstream (Gemini) context: `{ role, parts: [{text}] }`. -/
structure ChatContent where
  role : Role
  text : List Char
deriving Repr, DecidableEq

/-- JavaScript truthiness of an optional string field. -/
def truthyStr : Option (List Char) → Bool
  | some t => !t.isEmpty
  | none => false

/-- The context filter inside `populateChatFromHistory`:
`if (msg.textContent && !msg.isError)`. -/
def contextEntryOf (msg : StoredMessage) : Option ChatContent :=
  if truthyStr msg.textContent ∧ msg.isError = false then
    some ⟨msg.role, msg.textContent.getD []⟩
  else none

/-- The upstream context rebuilt by `populateChatFromHistory` from the
stored log, in stored order. -/
def populateChatFromHistory (history : List StoredMessage) : List ChatContent :=
  history.filterMap contextEntryOf

/-! ## UI nodes -/

inductive BubbleContent where
  | markdown (text : List Char)
  | rendered (segs : List Segment)
  | image (url : List Char) (alt : List Char)
  | empty
deriving Repr, DecidableEq

structure Bubble where
  id : List Char
  role : Role
  errorStyled : Bool
  content : BubbleContent
deriving Repr, DecidableEq

/-- `addMessageToChat`: text content renders as markdown (errors get the
`**Error:** ` prefix), otherwise an image when `imageUrl` is set. -/
def bubbleOfMessage (msg : StoredMessage) : Bubble :=
  { id := msg.id, role := msg.role, errorStyled := msg.isError,
    content :=
      if truthyStr msg.textContent then
        .markdown (if msg.isError then "**Error:** ".data ++ msg.textContent.getD []
                   else msg.textContent.getD [])
      else if truthyStr msg.imageUrl then
        .image (msg.imageUrl.getD []) (msg.altText.getD "Generated image".data)
      else .empty }

/-! ## Conversation controller (`handleSendMessage` and the two paths) -/

/-- Template-string ids like `` `user-${Date.now()}` ``. -/
def msgId (kind : String) (now : Nat) : List Char :=
  kind.data ++ (Nat.repr now).data

def userMessageOf (text : List Char) (now : Nat) : StoredMessage :=
  { id := msgId "user-" now, role := .user, textContent := some text,
    timestamp := now }

def noApiKeyMessage (now : Nat) : StoredMessage :=
  { id := msgId "err-noapikey-" now, role := .model, isError := true,
    textContent := some "Cannot send message: API Key is not configured.".data,
    timestamp := now }

/-- Environment outcome of the text stream: the fragments served, and
on failure the raised `error.message` (`none` models a non-`Error`
throw, which falls back to the fixed string). -/
inductive TextOutcome where
  | success (chunks : List (List Char))
  | failure (chunks : List (List Char)) (reason : Option (List Char))
deriving Repr, DecidableEq

/-- Environment outcome of `generateImages`. -/
inductive ImageOutcome where
  | success (imageBytes : List Char)
  | noImageData
  | failure (reason : Option (List Char))
deriving Repr, DecidableEq

structure TurnEnv where
  now : Nat
  textOutcome : TextOutcome
  imageOutcome : ImageOutcome
deriving Repr, DecidableEq

structure AppState where
  store : List StoredMessage
  ui : List Bubble
  inputValue : List Char
  busy : Bool
deriving Repr, DecidableEq

/-- `aiResponseText` accumulated over the stream (empty fragments append
nothing either way). -/
def aiResponseTextOf (chunks : List (List Char)) : List Char :=
  chunks.foldl (· ++ ·) []

def emptyResponseMarker : List Char := "[AI gave an empty response]".data

/-- `aiResponseText.trim() || "[AI gave an empty response]"`. -/
def textSuccessText (chunks : List (List Char)) : List Char :=
  if jsTrim (aiResponseTextOf chunks) = [] then emptyResponseMarker
  else jsTrim (aiResponseTextOf chunks)

def textSuccessMessage (chunks : List (List Char)) (now : Nat) : StoredMessage :=
  { id := msgId "ai-" now, role := .model,
    textContent := some (textSuccessText chunks), timestamp := now }

def defaultTextError : List Char := "Could not get a response from the AI.".data

def textErrorMessage (reason : Option (List Char)) (now : Nat) : StoredMessage :=
  { id := msgId "err-text-" now, role := .model,
    textContent := some (reason.getD defaultTextError), isError := true,
    timestamp := now }

def thinkingBubbleId (now : Nat) : List Char := msgId "ai-thinking-" now

/-- `handleTextMessage`: on success the placeholder node is re-identified
as the final message and repopulated from the segmenter; on failure the
placeholder is removed and a fresh error bubble is appended, and the
error message is persisted.  The net state after the call. -/
def handleTextMessage (o : TextOutcome) (now : Nat) (s : AppState) : AppState :=
  match o with
  | .success chunks =>
    let finalMsg := textSuccessMessage chunks now
    { s with
      store := s.store ++ [finalMsg],
      ui := s.ui ++ [{ id := finalMsg.id, role := .model, errorStyled := false,
                       content := .rendered
                         (formatAndDisplayAIResponse (textSuccessText chunks)) }] }
  | .failure _ reason =>
    let errMsg := textErrorMessage reason now
    { s with store := s.store ++ [errMsg], ui := s.ui ++ [bubbleOfMessage errMsg] }

def imageUrlOf (base64ImageBytes : List Char) : List Char :=
  "data:image/jpeg;base64,".data ++ base64ImageBytes

def imageAltOf (prompt : List Char) : List Char :=
  "Generated image for: ".data ++ prompt

def noImageDataText : List Char :=
  "Sorry, I could not generate an image. The image data might be missing.".data

def defaultImageError : List Char := "Failed to generate image.".data

def imageErrorText (reason : Option (List Char)) : List Char :=
  "Error generating image: ".data ++ reason.getD defaultImageError

def imageFinalMessage (prompt : List Char) (o : ImageOutcome) (now : Nat) :
    StoredMessage :=
  match o with
  | .success bytes =>
    { id := msgId "ai-img-" now, role := .model,
      imageUrl := some (imageUrlOf bytes), altText := some (imageAltOf prompt),
      timestamp := now }
  | .noImageData =>
    { id := msgId "err-img-" now, role := .model,
      textContent := some noImageDataText, isError := true, timestamp := now }
  | .failure reason =>
    { id := msgId "err-img-api-" now, role := .model,
      textContent := some (imageErrorText reason), isError := true,
      timestamp := now }

/-- `handleImageGeneration`: the placeholder bubble is re-identified as
the final message and filled with the image or the error text; exactly
one finalized message is persisted on every path. -/
def handleImageGeneration (prompt : List Char) (o : ImageOutcome) (now : Nat)
    (s : AppState) : AppState :=
  let msg := imageFinalMessage prompt o now
  { s with
    store := s.store ++ [msg],
    ui := s.ui ++ [{ id := msg.id, role := .model, errorStyled := msg.isError,
                     content :=
                       match o with
                       | .success bytes => .image (imageUrlOf bytes) (imageAltOf prompt)
                       | .noImageData => .markdown noImageDataText
                       | .failure reason => .markdown (imageErrorText reason) }] }

/-! ## Input classification -/

def IMAGE_GENERATION_KEYWORDS : List (List Char) :=
  ["generate image of".data, "create an image of".data, "draw a picture of".data,
   "draw an image of".data, "show me an image of".data, "make an image of".data]

/-- The first keyword (list order) that prefixes the lowercased input. -/
def findImageKeyword (lowerCaseMessage : List Char) : Option (List Char) :=
  IMAGE_GENERATION_KEYWORDS.find? (fun k => k.isPrefixOf lowerCaseMessage)

/-- The classification loop of `handleSendMessage`: returns
`(isImageRequest, imagePrompt)`. -/
def classifyMessage (userMessageText : List Char) : Bool × List Char :=
  match findImageKeyword (lowerStr userMessageText) with
  | some keyword => (true, jsTrim (userMessageText.drop keyword.length))
  | none => (false, [])

/-- Which path a submission dispatches to:
`if (isImageRequest && imagePrompt) handleImageGeneration else handleTextMessage`. -/
inductive Dispatch where
  | image (prompt : List Char)
  | text (full : List Char)
deriving Repr, DecidableEq

def dispatchOf (userMessageText : List Char) : Dispatch :=
  let c := classifyMessage userMessageText
  if c.1 ∧ c.2 ≠ [] then .image c.2 else .text userMessageText

/-- The state at every suspension point of an accepted turn: the user
message has been displayed and persisted, the input box cleared, and the
busy flag set; the path handlers never touch `inputValue` or `busy`. -/
def midTurnState (env : TurnEnv) (s : AppState) : AppState :=
  let userMsg := userMessageOf (jsTrim s.inputValue) env.now
  { store := s.store ++ [userMsg], ui := s.ui ++ [bubbleOfMessage userMsg],
    inputValue := [], busy := true }

/-- `handleSendMessage`: the missing-API-key short circuit, the
empty-input guard, user-message persistence, classification, dispatch,
and the unconditional `finally { setLoading(false) }`. -/
def handleSendMessage (apiKey : Bool) (env : TurnEnv) (s : AppState) : AppState :=
  if apiKey = false then
    { s with ui := s.ui ++ [bubbleOfMessage (noApiKeyMessage env.now)] }
  else
    let userMessageText := jsTrim s.inputValue
    if userMessageText = [] then s
    else
      let s1 := midTurnState env s
      let s2 :=
        match dispatchOf userMessageText with
        | .image prompt => handleImageGeneration prompt env.imageOutcome env.now s1
        | .text _ => handleTextMessage env.textOutcome env.now s1
      { s2 with busy := false }

/-! ## `parseMarkdown` and the script-stripping regex

`/<script\b[^<]*(?:(?!<\/script>)<[^<]*)*<\/script>/gi` removes, for
each case-insensitive `<script` occurrence followed by a non-word
character, everything up to and including the first subsequent
case-insensitive `</script>`; when no closer exists the scan advances
one character.  `marked.parse` is an external black box, modelled as an
oracle returning `none` when the conversion throws. -/

def ciPrefix : List Char → List Char → Bool
  | [], _ => true
  | _ :: _, [] => false
  | p :: ps, c :: cs => (lowerChar c == lowerChar p) && ciPrefix ps cs

/-- `<script` (case-insensitive) followed by a word boundary. -/
def scriptOpenAt (l : List Char) : Bool :=
  ciPrefix "<script".data l &&
    (match l.drop 7 with
     | [] => true
     | c :: _ => !(isWordChar c))

/-- Scan for the first case-insensitive `</script>`; return the text
after it. -/
def dropToScriptClose : List Char → Option (List Char)
  | [] => none
  | c :: cs =>
    if ciPrefix "</script>".data (c :: cs) then some ((c :: cs).drop 9)
    else dropToScriptClose cs

def sanitizeGo : Nat → List Char → List Char
  | 0, l => l
  | fuel + 1, l =>
    match l with
    | [] => []
    | c :: cs =>
      if scriptOpenAt (c :: cs) then
        match dropToScriptClose ((c :: cs).drop 7) with
        | some rest => sanitizeGo fuel rest
        | none => c :: sanitizeGo fuel cs
      else c :: sanitizeGo fuel cs

/-- `text.replace(scriptRegex, '')`. -/
def sanitizeScripts (text : List Char) : List Char :=
  sanitizeGo (text.length + 1) text

/-- `parseMarkdown`: sanitize, convert; **on a conversion throw return
the original `text`** (the `catch` branch returns `text`, not
`sanitizedText`). -/
def parseMarkdown (markedParse : List Char → Option (List Char))
    (text : List Char) : List Char :=
  match markedParse (sanitizeScripts text) with
  | some html => html
  | none => text

/-- The variant the specification describes: the throw fallback returns
the *sanitized* text.  Stated from the spec's words, for comparison with
`parseMarkdown` above. -/
def parseMarkdownSpec (markedParse : List Char → Option (List Char))
    (text : List Char) : List Char :=
  match markedParse (sanitizeScripts text) with
  | some html => html
  | none => sanitizeScripts text

theorem dropToScriptClose_length : ∀ (l r : List Char),
    dropToScriptClose l = some r → r.length < l.length := by
  intro l
  induction l with
  | nil => intro r h; simp [dropToScriptClose] at h
  | cons c cs ih =>
    intro r h
    simp only [dropToScriptClose] at h
    split at h
    · simp only [Option.some.injEq] at h
      subst h
      simp only [List.length_drop, List.length_cons]
      omega
    · have := ih r h
      simp only [List.length_cons]
      omega

theorem sanitizeGo_congr : ∀ (f₁ f₂ : Nat) (l : List Char),
    l.length < f₁ → l.length < f₂ → sanitizeGo f₁ l = sanitizeGo f₂ l := by
  intro f₁
  induction f₁ with
  | zero => intro f₂ l h1 _; omega
  | succ a ih =>
    intro f₂ l h1 h2
    cases f₂ with
    | zero => omega
    | succ b =>
      cases l with
      | nil => rfl
      | cons c cs =>
        simp only [sanitizeGo]
        split
        · cases heq : dropToScriptClose ((c :: cs).drop 7) with
          | none =>
            simp only []
            rw [ih b cs (by simp at h1; omega) (by simp at h2; omega)]
          | some rest =>
            have hr := dropToScriptClose_length _ _ heq
            have hd : ((c :: cs).drop 7).length ≤ (c :: cs).length := by
              simp [List.length_drop]; omega
            simp only []
            rw [ih b rest (by simp_all; omega) (by simp_all; omega)]
        · rw [ih b cs (by simp at h1; omega) (by simp at h2; omega)]

/-! ## Support lemmas for the claims -/

theorem trim_nil_all_ws {l : List Char} (h : jsTrim l = []) :
    ∀ c ∈ l, isJsWs c := by
  unfold jsTrim at h
  have h2 : (l.dropWhile isJsWs).reverse.dropWhile isJsWs = [] := by
    have := congrArg List.reverse h
    rwa [List.reverse_reverse] at this
  have h3 : ∀ c ∈ (l.dropWhile isJsWs).reverse, isJsWs c :=
    List.dropWhile_eq_nil_iff.mp h2
  intro c hc
  rw [span_decomp isJsWs l] at hc
  rcases List.mem_append.mp hc with h4 | h4
  · exact List.mem_takeWhile_imp h4
  · exact h3 c (List.mem_reverse.mpr h4)

theorem trim_nil_no_match {l : List Char} (h : jsTrim l = []) :
    findCodeMatch l = none := by
  cases heq : findCodeMatch l with
  | none => rfl
  | some m =>
    exfalso
    have hdec := findCodeMatch_eq l m heq
    have hmem : '`' ∈ l := by
      rw [hdec]; simp
    have := trim_nil_all_ws h '`' hmem
    simp [isJsWs] at this

theorem textSuccessText_ne_nil (chunks : List (List Char)) :
    textSuccessText chunks ≠ [] := by
  unfold textSuccessText
  split
  · decide
  · assumption

/-- The template-string ids of distinct kinds differ (their first
characters already do). -/
theorem textError_id_ne_thinking (reason : Option (List Char)) (now : Nat) :
    (textErrorMessage reason now).id ≠ thinkingBubbleId now := by
  intro h
  have h1 : (textErrorMessage reason now).id.head? = some 'e' := rfl
  rw [h] at h1
  have h2 : (thinkingBubbleId now).head? = some 'a' := rfl
  rw [h1] at h2
  simp at h2

/-! Balanced fences, stated from the claim's words: an even number of
(greedily counted, non-overlapping) `` ``` `` occurrences. -/

def fenceCountGo : Nat → List Char → Nat
  | 0, _ => 0
  | fuel + 1, l =>
    match splitFence l with
    | none => 0
    | some (_, b) => fenceCountGo fuel b + 1

def fenceCount (l : List Char) : Nat := fenceCountGo (l.length + 1) l

def balancedFences (l : List Char) : Bool := fenceCount l % 2 == 0

/-- Well-formedness every message written by the app satisfies: a
present text payload is non-empty. -/
def wellFormedMsg (m : StoredMessage) : Bool :=
  match m.textContent with
  | some t => !t.isEmpty
  | none => true

/-- The upstream context as the specification words it: the subsequence
of stored messages that have a text payload and are not errors, in
stored order. -/
def upstreamSpec (history : List StoredMessage) : List ChatContent :=
  (history.filter (fun m => m.textContent.isSome && !m.isError)).map
    (fun m => ⟨m.role, m.textContent.getD []⟩)

theorem lowerChar_lt_iff (c : Char) : lowerChar c = '<' ↔ c = '<' := by
  constructor
  · intro h
    unfold lowerChar at h
    split at h
    · exfalso
      rename_i hr
      have hv : (Char.ofNat (c.toNat + 32)).toNat = c.toNat + 32 := by
        unfold Char.ofNat
        rw [dif_pos (by constructor; omega)]
        rfl
      rw [h] at hv
      have : ('<' : Char).toNat = 60 := by decide
      omega
    · exact h
  · intro h
    subst h
    decide

theorem dropToScriptClose_skip (rest : List Char) :
    ∀ (x : List Char), (∀ c ∈ x, c ≠ '<') →
      dropToScriptClose (x ++ "</script>".data ++ rest) = some rest := by
  intro x
  induction x with
  | nil => intro _; rfl
  | cons x0 xs ih =>
    intro hx
    have h0 : x0 ≠ '<' := hx x0 (by simp)
    have hc : (lowerChar x0 == lowerChar '<') = false := by
      rw [beq_eq_false_iff_ne]
      intro hh
      exact h0 ((lowerChar_lt_iff x0).mp (by rw [hh]; decide))
    show dropToScriptClose (x0 :: (xs ++ "</script>".data ++ rest)) = some rest
    simp only [dropToScriptClose]
    rw [if_neg ?_]
    · exact ih fun c hcm => hx c (by simp [hcm])
    · show ¬(ciPrefix "</script>".data (x0 :: (xs ++ "</script>".data ++ rest)) = true)
      show ¬(((lowerChar x0 == lowerChar '<') &&
        ciPrefix "/script>".data (xs ++ "</script>".data ++ rest)) = true)
      rw [hc]
      simp

/-! ## Claims -/

/-- C2: segmenting the final input `"Here:\n```js\nconsole.log(1)\n```\ndone"`
yields exactly `[Prose "Here:", Code "js" "console.log(1)", Prose "done"]`. -/
theorem claim_C2 :
    formatAndDisplayAIResponse "Here:\n```js\nconsole.log(1)\n```\ndone".data =
      [Segment.prose "Here:".data,
       Segment.code "js".data "console.log(1)".data,
       Segment.prose "done".data] := by decide

/-- C3 counterexample: on `"x\n```js\n```\ny"` the fence scan matches a
region (tag `js`, empty body), yet the output contains no Code segment
at all — the matched region is dropped, refuting "every region matched
by the fence scan is emitted as a Code segment". -/
theorem claim_C3_counterexample :
    findCodeMatch "x\n```js\n```\ny".data =
      some ⟨"x\n".data, "js".data, "\n".data, [], [], "\ny".data⟩ ∧
    formatAndDisplayAIResponse "x\n```js\n```\ny".data =
      [Segment.prose "x".data, Segment.prose "y".data] := by decide

/-- C3 (amended): every region matched by the fence scan decomposes the
input as `pre ++ ``` ++ tag ++ ws ++ body ++ ws ++ ``` ++ post` with a
word-character tag and whitespace slack; it is emitted as a Code segment
*iff* the fully-trimmed body is non-empty, with language the declared
tag (default `plaintext` when empty) and content the body trimmed of
all leading and trailing whitespace (not merely one newline); a region
whose body trims to empty produces no Code segment. -/
theorem claim_C3 (l : List Char) (m : FenceMatch)
    (h : findCodeMatch l = some m) :
    l = m.pre ++ '`' :: '`' :: '`' ::
        (m.tag ++ m.ws1 ++ m.body ++ m.ws2 ++ '`' :: '`' :: '`' :: m.post) ∧
    (∀ c ∈ m.tag, isWordChar c) ∧
    (∀ c ∈ m.ws1, isJsWs c) ∧ (∀ c ∈ m.ws2, isJsWs c) ∧
    segmentsOf l =
      (if jsTrim m.pre = [] then [] else [Segment.prose (jsTrim m.pre)]) ++
        ((if jsTrim m.body = [] then []
          else [Segment.code (languageOf m.tag) (jsTrim m.body)]) ++
          segmentsOf m.post) := by
  obtain ⟨h1, h2, h3⟩ := findCodeMatch_facts l m h
  refine ⟨findCodeMatch_eq l m h, h1, h2, h3, ?_⟩
  rw [segmentsOf_some l m h]
  simp [matchSegs, List.append_assoc]

/-- C3 witness: the amended statement evaluated on `"pre```js\nx```post"`. -/
theorem claim_C3_witness :
    findCodeMatch "pre```js\nx```post".data =
      some ⟨"pre".data, "js".data, "\n".data, "x".data, [], "post".data⟩ ∧
    ("pre```js\nx```post".data = "pre".data ++ '`' :: '`' :: '`' ::
        ("js".data ++ "\n".data ++ "x".data ++ [] ++
          '`' :: '`' :: '`' :: "post".data) ∧
      (∀ c ∈ "js".data, isWordChar c) ∧
      (∀ c ∈ "\n".data, isJsWs c) ∧ (∀ c ∈ ([] : List Char), isJsWs c) ∧
      segmentsOf "pre```js\nx```post".data =
        (if jsTrim "pre".data = [] then []
         else [Segment.prose (jsTrim "pre".data)]) ++
          ((if jsTrim "x".data = [] then []
            else [Segment.code (languageOf "js".data) (jsTrim "x".data)]) ++
            segmentsOf "post".data)) :=
  ⟨by decide, claim_C3 "pre```js\nx```post".data
    ⟨"pre".data, "js".data, "\n".data, "x".data, [], "post".data⟩ (by decide)⟩

/-- C4 counterexample: on the final empty input the single Prose segment
holds the italic-wrapped placeholder `"<i>[AI gave an empty response]</i>"`,
not the bare string `"[AI gave an empty response]"`. -/
theorem claim_C4_counterexample :
    formatAndDisplayAIResponse [] =
      [Segment.prose "<i>[AI gave an empty response]</i>".data] ∧
    formatAndDisplayAIResponse [] ≠
      [Segment.prose "[AI gave an empty response]".data] := by decide

/-- C4 (amended): when segmentation is final, an input whose trim is
empty yields exactly one Prose segment holding the fixed placeholder
wrapped in italic markup (`"<i>[AI gave an empty response]</i>"`); a
non-empty-after-trim input with zero fenced matches yields exactly one
Prose segment holding the full trimmed text. -/
theorem claim_C4 (l : List Char) :
    (jsTrim l = [] →
      formatAndDisplayAIResponse l = [Segment.prose emptyResponseFallback]) ∧
    (jsTrim l ≠ [] → findCodeMatch l = none →
      formatAndDisplayAIResponse l = [Segment.prose (jsTrim l)]) := by
  constructor
  · intro h
    have hnone := trim_nil_no_match h
    simp [formatAndDisplayAIResponse, segmentsOf_none l hnone, h]
  · intro h hnone
    simp [formatAndDisplayAIResponse, segmentsOf_none l hnone, h]

/-- C4 witness: the amended statement at `"   "` (whitespace-only) and at
`"no code here"`. -/
theorem claim_C4_witness :
    formatAndDisplayAIResponse "   ".data = [Segment.prose emptyResponseFallback] ∧
    formatAndDisplayAIResponse "no code here".data =
      [Segment.prose "no code here".data] :=
  ⟨(claim_C4 "   ".data).1 (by decide),
   (claim_C4 "no code here".data).2 (by decide) (by decide)⟩

/-- C5 counterexample: `"a\n```js\n```\nb"` has balanced fences, yet the
segments lose the entire fenced region (its body trims to empty, so no
Code segment is emitted): the concatenated rendering differs from the
input even after erasing all whitespace. -/
theorem claim_C5_counterexample :
    balancedFences "a\n```js\n```\nb".data = true ∧
    stripWs (renderAll (segmentsOf "a\n```js\n```\nb".data)) ≠
      stripWs "a\n```js\n```\nb".data := by decide

/-- C5 (amended): for every input whose matched fenced regions all carry
an explicit language tag and a non-empty body, the segments cover the
input with no gaps: concatenating the rendered segments reproduces the
input up to whitespace. -/
theorem claim_C5 (l : List Char) (h : goodScan l = true) :
    stripWs (renderAll (segmentsOf l)) = stripWs l :=
  roundtrip_aux l.length l (Nat.le_refl _) h

/-- C5 witness: the amended round-trip evaluated on the C2 input. -/
theorem claim_C5_witness :
    goodScan "Here:\n```js\nconsole.log(1)\n```\ndone".data = true ∧
    stripWs (renderAll (segmentsOf "Here:\n```js\nconsole.log(1)\n```\ndone".data)) =
      stripWs "Here:\n```js\nconsole.log(1)\n```\ndone".data :=
  ⟨by decide, claim_C5 "Here:\n```js\nconsole.log(1)\n```\ndone".data (by decide)⟩

/-- C6: `"generate image of a cat"` dispatches the image path with the
trimmed remainder `"a cat"` as prompt; `"generate image of"` matches a
keyword but leaves an empty remainder and falls through to the text path
with the literal input. -/
theorem claim_C6 :
    dispatchOf "generate image of a cat".data = Dispatch.image "a cat".data ∧
    dispatchOf "generate image of".data =
      Dispatch.text "generate image of".data := by decide

theorem imageFinalMessage_role (prompt : List Char) (o : ImageOutcome) (now : Nat) :
    (imageFinalMessage prompt o now).role = Role.model := by
  cases o <;> rfl

/-- C1: for every accepted turn (API key present, non-empty trimmed
input) and every environment outcome, exactly one user message and
exactly one model message are appended to the store — the new store is
the old store plus that pair, in order — and the busy flag ends false. -/
theorem claim_C1 (env : TurnEnv) (s : AppState)
    (hinput : jsTrim s.inputValue ≠ []) :
    ∃ userMsg modelMsg,
      (handleSendMessage true env s).store = s.store ++ [userMsg, modelMsg] ∧
      userMsg.role = Role.user ∧ modelMsg.role = Role.model ∧
      (handleSendMessage true env s).busy = false := by
  unfold handleSendMessage
  rw [if_neg (by decide : ¬(true = false))]
  simp only []
  rw [if_neg hinput]
  cases hdis : dispatchOf (jsTrim s.inputValue) with
  | image prompt =>
    refine ⟨userMessageOf (jsTrim s.inputValue) env.now,
      imageFinalMessage prompt env.imageOutcome env.now, ?_,
      rfl, imageFinalMessage_role .., rfl⟩
    simp [handleImageGeneration, midTurnState]
  | text full =>
    cases hto : env.textOutcome with
    | success chunks =>
      refine ⟨userMessageOf (jsTrim s.inputValue) env.now,
        textSuccessMessage chunks env.now, ?_, rfl, rfl, rfl⟩
      simp [handleTextMessage, midTurnState]
    | failure chunks reason =>
      refine ⟨userMessageOf (jsTrim s.inputValue) env.now,
        textErrorMessage reason env.now, ?_, rfl, rfl, rfl⟩
      simp [handleTextMessage, midTurnState]

/-- C1 witness: a concrete accepted turn. -/
theorem claim_C1_witness :
    ∃ userMsg modelMsg,
      (handleSendMessage true ⟨0, .success [], .noImageData⟩
          ⟨[], [], "hi".data, false⟩).store =
        ([] : List StoredMessage) ++ [userMsg, modelMsg] ∧
      userMsg.role = Role.user ∧ modelMsg.role = Role.model ∧
      (handleSendMessage true ⟨0, .success [], .noImageData⟩
          ⟨[], [], "hi".data, false⟩).busy = false :=
  claim_C1 ⟨0, .success [], .noImageData⟩ ⟨[], [], "hi".data, false⟩ (by decide)

/-- C7: on a mid-stream failure the turn appends exactly the error
message built from the failure reason — the result is invariant in the
received fragments, so the partial text is discarded and never persisted
or displayed — the in-flight placeholder node is absent from the final
UI, and the freshly created error bubble takes its place. -/
theorem claim_C7 (chunks : List (List Char)) (reason : Option (List Char))
    (now : Nat) (s : AppState)
    (hfresh : ∀ b ∈ s.ui, b.id ≠ thinkingBubbleId now) :
    (handleTextMessage (.failure chunks reason) now s).store =
        s.store ++ [textErrorMessage reason now] ∧
    (handleTextMessage (.failure chunks reason) now s).ui =
        s.ui ++ [bubbleOfMessage (textErrorMessage reason now)] ∧
    (textErrorMessage reason now).isError = true ∧
    (∀ b ∈ (handleTextMessage (.failure chunks reason) now s).ui,
        b.id ≠ thinkingBubbleId now) ∧
    (∀ chunks', handleTextMessage (.failure chunks' reason) now s =
        handleTextMessage (.failure chunks reason) now s) := by
  refine ⟨rfl, rfl, rfl, ?_, fun _ => rfl⟩
  intro b hb
  have hb' : b ∈ s.ui ++ [bubbleOfMessage (textErrorMessage reason now)] := hb
  rcases List.mem_append.mp hb' with h | h
  · exact hfresh b h
  · have hbe : b = bubbleOfMessage (textErrorMessage reason now) := by
      simpa using h
    subst hbe
    show (textErrorMessage reason now).id ≠ thinkingBubbleId now
    exact textError_id_ne_thinking reason now

/-- C7 witness: a concrete mid-stream failure after two fragments. -/
theorem claim_C7_witness :
    (handleTextMessage (.failure ["par".data, "tial".data] (some "boom".data)) 5
        ⟨[], [], [], true⟩).store =
      ([] : List StoredMessage) ++ [textErrorMessage (some "boom".data) 5] ∧
    (handleTextMessage (.failure ["par".data, "tial".data] (some "boom".data)) 5
        ⟨[], [], [], true⟩).ui =
      ([] : List Bubble) ++ [bubbleOfMessage (textErrorMessage (some "boom".data) 5)] ∧
    (textErrorMessage (some "boom".data) 5).isError = true ∧
    (∀ b ∈ (handleTextMessage (.failure ["par".data, "tial".data]
        (some "boom".data)) 5 ⟨[], [], [], true⟩).ui,
        b.id ≠ thinkingBubbleId 5) ∧
    (∀ chunks', handleTextMessage (.failure chunks' (some "boom".data)) 5
          ⟨[], [], [], true⟩ =
        handleTextMessage (.failure ["par".data, "tial".data]
          (some "boom".data)) 5 ⟨[], [], [], true⟩) :=
  claim_C7 ["par".data, "tial".data] (some "boom".data) 5 ⟨[], [], [], true⟩
    (by intro b hb; simp at hb)

/-- C9: at every suspension point of an accepted turn the controller is
busy and the input box has been cleared, and a second `handleSendMessage`
invoked on that state is a complete no-op — the state (store included)
is returned unchanged and no message is created. -/
theorem claim_C9 (env envSecond : TurnEnv) (s : AppState)
    (hinput : jsTrim s.inputValue ≠ []) :
    (midTurnState env s).busy = true ∧
    (midTurnState env s).inputValue = [] ∧
    handleSendMessage true envSecond (midTurnState env s) = midTurnState env s := by
  exact ⟨rfl, rfl, rfl⟩

/-- C9 witness: a concrete busy state. -/
theorem claim_C9_witness :
    (midTurnState ⟨0, .success [], .noImageData⟩ ⟨[], [], "hi".data, false⟩).busy = true ∧
    (midTurnState ⟨0, .success [], .noImageData⟩
        ⟨[], [], "hi".data, false⟩).inputValue = [] ∧
    handleSendMessage true ⟨1, .success [], .noImageData⟩
        (midTurnState ⟨0, .success [], .noImageData⟩ ⟨[], [], "hi".data, false⟩) =
      midTurnState ⟨0, .success [], .noImageData⟩ ⟨[], [], "hi".data, false⟩ :=
  claim_C9 ⟨0, .success [], .noImageData⟩ ⟨1, .success [], .noImageData⟩
    ⟨[], [], "hi".data, false⟩ (by decide)

theorem textSuccessText_isEmpty (chunks : List (List Char)) :
    (textSuccessText chunks).isEmpty = false := by
  cases heq : textSuccessText chunks with
  | nil => exact absurd heq (textSuccessText_ne_nil chunks)
  | cons c cs => rfl

/-- C8: (a) for every store of well-formed messages (present text
payloads are non-empty, which holds of everything the app writes), the
rebuilt upstream context is exactly the text-payload non-error
subsequence of the store, in stored order; (b) after a successful text
turn on `"hi"`, replaying the store yields the previous context followed
by `{role: user, text: "hi"}` and the model's reply, in order. -/
theorem claim_C8 :
    (∀ history : List StoredMessage, (∀ m ∈ history, wellFormedMsg m = true) →
        populateChatFromHistory history = upstreamSpec history) ∧
    (∀ (env : TurnEnv) (s : AppState) (chunks : List (List Char)),
        env.textOutcome = .success chunks →
        jsTrim s.inputValue = "hi".data →
        populateChatFromHistory (handleSendMessage true env s).store =
          populateChatFromHistory s.store ++
            [⟨Role.user, "hi".data⟩, ⟨Role.model, textSuccessText chunks⟩]) := by
  constructor
  · intro history hwf
    induction history with
    | nil => rfl
    | cons m ms ih =>
      have hm := hwf m (by simp)
      have ih' := ih fun x hx => hwf x (by simp [hx])
      unfold populateChatFromHistory upstreamSpec at ih' ⊢
      simp only [List.filterMap_cons, List.filter_cons]
      cases hmt : m.textContent with
      | none =>
        simp [contextEntryOf, truthyStr, hmt, ih']
      | some t =>
        have ht : t.isEmpty = false := by
          unfold wellFormedMsg at hm
          rw [hmt] at hm
          simpa using hm
        cases hie : m.isError with
        | false =>
          simp [contextEntryOf, truthyStr, hmt, hie, ht, ih']
        | true =>
          simp [contextEntryOf, truthyStr, hmt, hie, ht, ih']
  · intro env s chunks hto hin
    unfold handleSendMessage
    rw [if_neg (by decide : ¬(true = false))]
    simp only []
    rw [hin, if_neg (by decide : "hi".data ≠ [])]
    rw [show dispatchOf "hi".data = Dispatch.text "hi".data from by decide]
    simp only []
    rw [hto]
    unfold handleTextMessage midTurnState
    simp only [hin]
    show populateChatFromHistory ((s.store ++ [userMessageOf "hi".data env.now]) ++
      [textSuccessMessage chunks env.now]) = _
    unfold populateChatFromHistory
    rw [List.filterMap_append, List.filterMap_append]
    have hu : List.filterMap contextEntryOf [userMessageOf "hi".data env.now] =
        [⟨Role.user, "hi".data⟩] := by
      simp [contextEntryOf, truthyStr, userMessageOf]
    have ha : List.filterMap contextEntryOf [textSuccessMessage chunks env.now] =
        [⟨Role.model, textSuccessText chunks⟩] := by
      simp [contextEntryOf, truthyStr, textSuccessMessage,
        textSuccessText_isEmpty chunks]
    rw [hu, ha, List.append_assoc]
    rfl

/-- C8 witness: both parts at concrete inputs — a three-message store
containing an error and an image message, and a concrete successful
turn. -/
theorem claim_C8_witness :
    populateChatFromHistory
        [⟨"user-1".data, .user, some "hi".data, none, none, false, 1⟩,
         ⟨"err-2".data, .model, some "boom".data, none, none, true, 2⟩,
         ⟨"ai-img-3".data, .model, none, some "data:".data, some "alt".data, false, 3⟩] =
      upstreamSpec
        [⟨"user-1".data, .user, some "hi".data, none, none, false, 1⟩,
         ⟨"err-2".data, .model, some "boom".data, none, none, true, 2⟩,
         ⟨"ai-img-3".data, .model, none, some "data:".data, some "alt".data, false, 3⟩] ∧
    populateChatFromHistory
        (handleSendMessage true ⟨7, .success ["ok".data], .noImageData⟩
          ⟨[], [], " hi ".data, false⟩).store =
      populateChatFromHistory ([] : List StoredMessage) ++
        [⟨Role.user, "hi".data⟩, ⟨Role.model, textSuccessText ["ok".data]⟩] :=
  ⟨claim_C8.1 _ (by decide),
   claim_C8.2 ⟨7, .success ["ok".data], .noImageData⟩ ⟨[], [], " hi ".data, false⟩
     ["ok".data] rfl (by decide)⟩

/-- Removal of a leading script block by the sanitizer. -/
theorem sanitize_removes_script (body rest : List Char)
    (hbody : ∀ c ∈ body, c ≠ '<') :
    sanitizeScripts ("<script>".data ++ body ++ "</script>".data ++ rest) =
      sanitizeScripts rest := by
  have hL : "<script>".data ++ body ++ "</script>".data ++ rest =
      '<' :: 's' :: 'c' :: 'r' :: 'i' :: 'p' :: 't' :: '>' ::
        (body ++ ("</script>".data ++ rest)) := by
    simp [List.append_assoc]
  have hopen : scriptOpenAt ('<' :: 's' :: 'c' :: 'r' :: 'i' :: 'p' :: 't' :: '>' ::
      (body ++ ("</script>".data ++ rest))) = true := rfl
  have hclose : dropToScriptClose (('<' :: 's' :: 'c' :: 'r' :: 'i' :: 'p' :: 't' :: '>' ::
      (body ++ ("</script>".data ++ rest))).drop 7) = some rest := by
    show dropToScriptClose ('>' :: (body ++ ("</script>".data ++ rest))) = some rest
    have := dropToScriptClose_skip rest ('>' :: body)
      (by intro c hc
          rcases List.mem_cons.mp hc with h | h
          · subst h; decide
          · exact hbody c h)
    rw [show ('>' :: body) ++ "</script>".data ++ rest =
      '>' :: (body ++ ("</script>".data ++ rest)) from by simp [List.append_assoc]] at this
    exact this
  have hstep : ∀ (fuel : Nat) (c : Char) (cs : List Char),
      sanitizeGo (fuel + 1) (c :: cs) =
        if scriptOpenAt (c :: cs) then
          match dropToScriptClose ((c :: cs).drop 7) with
          | some r => sanitizeGo fuel r
          | none => c :: sanitizeGo fuel cs
        else c :: sanitizeGo fuel cs := fun _ _ _ => rfl
  unfold sanitizeScripts
  rw [hL, hstep, if_pos hopen, hclose]
  apply sanitizeGo_congr
  · simp [List.length_append]
    omega
  · omega

/-- C10 counterexample: when the markdown conversion throws, the source
returns the **original** text — script block intact — not the sanitized
text the claim describes. -/
theorem claim_C10_counterexample :
    parseMarkdown (fun _ => none) "<script>x</script>hi".data =
      "<script>x</script>hi".data ∧
    parseMarkdownSpec (fun _ => none) "<script>x</script>hi".data = "hi".data ∧
    parseMarkdown (fun _ => none) "<script>x</script>hi".data ≠
      parseMarkdownSpec (fun _ => none) "<script>x</script>hi".data := by decide

/-- C10 (amended): rendering never fails — `parseMarkdown` is total,
returning the conversion of the sanitized text on success and the
**original raw input** (not the sanitized text) when the conversion
throws; the sanitizer fed to the conversion does remove script blocks
(a `<script>…</script>` region with a `<`-free body is deleted
entirely), but the throw fallback may still expose script markup. -/
theorem claim_C10 :
    (∀ (markedParse : List Char → Option (List Char)) (text : List Char),
        markedParse (sanitizeScripts text) = none →
        parseMarkdown markedParse text = text) ∧
    (∀ (markedParse : List Char → Option (List Char)) (text html : List Char),
        markedParse (sanitizeScripts text) = some html →
        parseMarkdown markedParse text = html) ∧
    (∀ (body rest : List Char), (∀ c ∈ body, c ≠ '<') →
        sanitizeScripts ("<script>".data ++ body ++ "</script>".data ++ rest) =
          sanitizeScripts rest) := by
  refine ⟨?_, ?_, sanitize_removes_script⟩
  · intro f text h
    unfold parseMarkdown
    rw [h]
  · intro f text html h
    unfold parseMarkdown
    rw [h]

/-- C10 witness: the amended statement at concrete inputs — a throwing
conversion, a succeeding conversion, and a concrete script removal. -/
theorem claim_C10_witness :
    parseMarkdown (fun _ => none) "abc".data = "abc".data ∧
    parseMarkdown (fun l => some ('<' :: 'p' :: '>' :: l)) "abc".data =
      "<p>abc".data ∧
    sanitizeScripts ("<script>".data ++ "evil()".data ++ "</script>".data ++
        "tail".data) = sanitizeScripts "tail".data :=
  ⟨claim_C10.1 (fun _ => none) "abc".data rfl,
   claim_C10.2.1 (fun l => some ('<' :: 'p' :: '>' :: l)) "abc".data
     "<p>abc".data (by decide),
   claim_C10.2.2 "evil()".data "tail".data (by decide)⟩

end AIChat
